import Mathlib

/-!
Verification of the Redis-backed distributed lock in `noble-gase/kr`
(`kr-core/src/mutex/red_lock.rs` and the sibling variants
`kr-core/src/mutex/redlock.rs`, `kr-core/src/mutex/async_red_lock.rs`,
`src/mutex/redis_lock.rs`, `src/mutex/mod.rs`).

The lock talks to an external Redis store.  We embed each store interaction
shallowly: the responses the store gives to one `set_nx` attempt (the pool
checkout, the `SET key val NX PX ttl` call, and the corrective `GET`) are
supplied by an oracle, and the commands actually issued are collected into a
trace.  Machine integers are modelled by `Nat` with explicit truncation
(`% 2 ^ 64`) where the source casts (`as u64`).  Concurrency is modelled by
serialisation: `SET NX` is atomic in Redis, so any interleaving of N
concurrent acquisition attempts on one key is equivalent to some sequential
order of their atomic set operations over the shared store value.
-/

namespace Kr

/-- A store-side error (connection failure, timeout, script failure),
identified by an opaque code; stands for `redis::RedisError` / `anyhow::Error`. -/
structure RedisErr where
  code : Nat
deriving DecidableEq, Repr

/-- Result of a fallible store interaction (`RedisResult` / `anyhow::Result`). -/
inductive RResult (α : Type) where
  | ok : α → RResult α
  | err : RedisErr → RResult α
deriving DecidableEq, Repr

/-- Lock tokens are strings (UUID v4 in the source). -/
abbrev Token := String

/-- `std::time::Duration`: whole seconds plus sub-second nanoseconds. -/
structure Duration where
  secs : Nat
  nanos : Nat
deriving DecidableEq, Repr

/-- `Duration::as_millis` (exact; the Rust return type is `u128`). -/
def Duration.asMillis (d : Duration) : Nat :=
  d.secs * 1000 + d.nanos / 1000000

/-- `Duration::as_secs`. -/
def Duration.asSecs (d : Duration) : Nat :=
  d.secs

/-- Truncating cast `as u64`. -/
def toU64 (n : Nat) : Nat :=
  n % 2 ^ 64

/-- A command issued against the store, as it appears on the wire. -/
inductive Cmd where
  | setNxPx (key : String) (val : Token) (ttlMs : Nat)
  | setNxEx (key : String) (val : Token) (ttlSecs : Nat)
  | get (key : String)
  | evalCad (key : String) (tokenArg : Token)
deriving DecidableEq, Repr

/-- The mutable state of a `RedLock` handle:
`{ pool, key, ttl, token, prevent }` minus the pool, which carries no
lock-relevant state of its own. -/
structure RedLockState where
  key : String
  ttl : Duration
  token : Option Token
  prevent : Bool
deriving DecidableEq, Repr

/-- The store's responses to one `set_nx` attempt: the pool checkout
(`self.pool.get()`), the `SET NX PX` call, and the corrective `GET`
(consulted only when the set call errs). -/
structure SetNxOracle where
  connResp : RResult Unit
  setResp : RResult Bool
  getResp : RResult (Option Token)
deriving DecidableEq, Repr

/-- `RedLock::set_nx` from `kr-core/src/mutex/red_lock.rs` (the identical
logic appears in `async_red_lock.rs`, `src/mutex/redis_lock.rs` and
`src/mutex/mod.rs`): checkout a connection, `SET key token NX PX ttl_ms`;
on `Ok(true)` record the token; on `Ok(false)` leave the token alone; on
`Err(e)` issue one corrective `GET`: a get error propagates, a missing value
propagates the original error `e`, a value equal to the fresh token records
the token, and any other value leaves the token alone and returns `Ok`.
Returns the new `token` field and the trace of issued commands. -/
def setNx (st : RedLockState) (tok : Token) (o : SetNxOracle) :
    RResult (Option Token) × List Cmd :=
  match o.connResp with
  | .err e => (.err e, [])
  | .ok _ =>
    let setCmd := Cmd.setNxPx st.key tok (toU64 st.ttl.asMillis)
    match o.setResp with
    | .ok v => (.ok (if v then some tok else st.token), [setCmd])
    | .err e =>
      match o.getResp with
      | .err e2 => (.err e2, [setCmd, Cmd.get st.key])
      | .ok none => (.err e, [setCmd, Cmd.get st.key])
      | .ok (some v) =>
        (.ok (if v = tok then some tok else st.token), [setCmd, Cmd.get st.key])

/-- `RedLock::set_nx` from `kr-core/src/mutex/redlock.rs`: same control flow,
but the expiry is `EX(self.ttl.as_secs().max(1))` — whole seconds, clamped
to at least one second. -/
def redlockSetNx (st : RedLockState) (tok : Token) (o : SetNxOracle) :
    RResult (Option Token) × List Cmd :=
  match o.connResp with
  | .err e => (.err e, [])
  | .ok _ =>
    let setCmd := Cmd.setNxEx st.key tok (max st.ttl.asSecs 1)
    match o.setResp with
    | .ok v => (.ok (if v then some tok else st.token), [setCmd])
    | .err e =>
      match o.getResp with
      | .err e2 => (.err e2, [setCmd, Cmd.get st.key])
      | .ok none => (.err e, [setCmd, Cmd.get st.key])
      | .ok (some v) =>
        (.ok (if v = tok then some tok else st.token), [setCmd, Cmd.get st.key])

/-- Observable outcome of one `acquire` call: the returned value
(`anyhow::Result<Option<RedLock>>`), the list of sleeps performed (each entry
is the duration slept), the trace of store commands issued, and the number of
`set_nx` attempts made. -/
structure AcquireOutcome where
  result : RResult (Option RedLockState)
  sleeps : List Duration
  trace : List Cmd
  tries : Nat
deriving DecidableEq, Repr

/-- The retry loop of `RedLock::acquire`
(`for i in 0..attempts { set_nx()?; if token.is_some() { return Ok(Some) };
if i < attempts - 1 { sleep(duration) } }; Ok(None)`), with `i` the next
index and `r` the number of iterations left; the sleep guard
`i < attempts - 1` is exactly `r ≠ 0` after the current iteration. -/
def acquireGo (toks : Nat → Token) (orc : Nat → SetNxOracle) (interval : Duration) :
    RedLockState → Nat → Nat → AcquireOutcome
  | _, _, 0 => ⟨.ok none, [], [], 0⟩
  | st, i, r + 1 =>
    match setNx st (toks i) (orc i) with
    | (.err e, tr) => ⟨.err e, [], tr, 1⟩
    | (.ok newTok, tr) =>
      if newTok.isSome then
        ⟨.ok (some { st with token := newTok }), [], tr, 1⟩
      else
        let rest := acquireGo toks orc interval { st with token := newTok } (i + 1) r
        ⟨rest.result, (if r = 0 then [] else [interval]) ++ rest.sleeps,
          tr ++ rest.trace, 1 + rest.tries⟩

/-- `RedLock::acquire` from `kr-core/src/mutex/red_lock.rs`: build a handle
with `token = None`, `prevent = false`; with `retry = Some((attempts, d))`
run the retry loop (the Rust range `0..attempts` over `i32` is empty when
`attempts ≤ 0`, hence `Int.toNat`); without retry make exactly one attempt.
Fresh tokens and store responses per attempt come from the oracles. -/
def acquire (key : String) (ttl : Duration) (retry : Option (Int × Duration))
    (toks : Nat → Token) (orc : Nat → SetNxOracle) : AcquireOutcome :=
  let st : RedLockState := ⟨key, ttl, none, false⟩
  match retry with
  | some (attempts, interval) => acquireGo toks orc interval st 0 attempts.toNat
  | none =>
    match setNx st (toks 0) (orc 0) with
    | (.err e, tr) => ⟨.err e, [], tr, 1⟩
    | (.ok newTok, tr) =>
      if newTok.isSome then ⟨.ok (some { st with token := newTok }), [], tr, 1⟩
      else ⟨.ok none, [], tr, 1⟩

/-- The store's responses to one `release` call: the pool checkout and the
compare-and-delete script invocation (whose Redis reply is the integer 0 or
1; the source invokes it at type `()`, discarding the integer). -/
structure ReleaseOracle where
  connResp : RResult Unit
  evalResp : RResult Nat
deriving DecidableEq, Repr

/-- Observable outcome of one `release` call: the returned
`anyhow::Result<()>`, the handle state afterwards, and the trace of issued
commands. -/
structure ReleaseOutcome where
  result : RResult Unit
  state : RedLockState
  trace : List Cmd
deriving DecidableEq, Repr

/-- `RedLock::release`: if `token` is `None` return `Ok(())` at once with no
store traffic; otherwise checkout a connection and invoke the
compare-and-delete script with the key and token; on success clear the token;
on any error propagate it and leave the token untouched. -/
def release (st : RedLockState) (o : ReleaseOracle) : ReleaseOutcome :=
  match st.token with
  | none => ⟨.ok (), st, []⟩
  | some t =>
    match o.connResp with
    | .err e => ⟨.err e, st, []⟩
    | .ok _ =>
      match o.evalResp with
      | .ok _ => ⟨.ok (), { st with token := none }, [Cmd.evalCad st.key t]⟩
      | .err e => ⟨.err e, st, [Cmd.evalCad st.key t]⟩

/-- `RedLock::prevent`: set the suppress-auto-release flag. -/
def prevent (st : RedLockState) : RedLockState :=
  { st with prevent := true }

/-- Observable outcome of a `Drop`: the state left behind, whether a release
was attempted, the commands issued, and the error that was logged (the drop
itself returns nothing and can propagate nothing). -/
structure DropOutcome where
  state : RedLockState
  attempted : Bool
  trace : List Cmd
  logged : Option RedisErr
deriving DecidableEq, Repr

/-- `impl Drop for RedLock` (synchronous): if `prevent` is set or no token is
held, do nothing; otherwise call `release` and log (never return) its error. -/
def dropSync (st : RedLockState) (o : ReleaseOracle) : DropOutcome :=
  if st.prevent || st.token.isNone then ⟨st, false, [], none⟩
  else
    let r := release st o
    ⟨r.state, true, r.trace,
      match r.result with
      | .ok _ => none
      | .err e => some e⟩

/-- The detached background task spawned by `impl Drop for AsyncRedLock`:
checkout a connection and invoke the compare-and-delete script with the
captured key and token; any error is logged inside the task. -/
def dropAsyncTask (key : String) (t : Token) (o : ReleaseOracle) :
    List Cmd × Option RedisErr :=
  match o.connResp with
  | .err e => ([], some e)
  | .ok _ =>
    match o.evalResp with
    | .ok _ => ([Cmd.evalCad key t], none)
    | .err e => ([Cmd.evalCad key t], some e)

/-- `impl Drop for AsyncRedLock`: if `prevent` is set or no token is held, do
nothing; otherwise spawn the detached release task with the cloned pool, key
and token. The handle's own state is not touched (it is being dropped). -/
def dropAsync (st : RedLockState) (o : ReleaseOracle) : DropOutcome :=
  match st.token with
  | none => ⟨st, false, [], none⟩
  | some t =>
    if st.prevent then ⟨st, false, [], none⟩
    else
      let task := dropAsyncTask st.key t o
      ⟨st, true, task.1, task.2⟩

/-- An operation performed on an existing handle after acquisition: manual
release, `prevent`, or scope-end drop (each with the store responses it
observes). -/
inductive HOp where
  | rel (o : ReleaseOracle)
  | prev
  | drp (o : ReleaseOracle)
deriving Repr

/-- Effect of one handle operation on the handle state. -/
def applyOp (st : RedLockState) (op : HOp) : RedLockState :=
  match op with
  | .rel o => (release st o).state
  | .prev => prevent st
  | .drp o => (dropSync st o).state

/-- Effect of a sequence of handle operations. -/
def applyOps (st : RedLockState) : List HOp → RedLockState
  | [] => st
  | op :: ops => applyOps (applyOp st op) ops

/-- Atomic `SET key tok NX` against the shared store value: succeeds exactly
when the key is absent, in which case it installs `tok`. -/
def storeSetNx (store : Option Token) (tok : Token) : Bool × Option Token :=
  match store with
  | none => (true, some tok)
  | some v => (false, some v)

/-- The error-free oracle a `set_nx` attempt observes when its atomic set is
serialised at a point where the store holds `store`. -/
def oracleOf (store : Option Token) (tok : Token) : SetNxOracle :=
  ⟨.ok (), .ok (storeSetNx store tok).1, .ok store⟩

/-- N concurrent single-attempt `acquire` calls on one key, serialised in the
order in which their atomic `SET NX` operations reach the store, starting
from store contents `store`; returns each call's outcome. -/
def serializeAcquires (key : String) (ttl : Duration) :
    Option Token → List Token → List AcquireOutcome
  | _, [] => []
  | store, t :: ts =>
    acquire key ttl none (fun _ => t) (fun _ => oracleOf store t)
      :: serializeAcquires key ttl (storeSetNx store t).2 ts

/-- Did this `acquire` call return `Ok(Some(handle))`? -/
def acquired (a : AcquireOutcome) : Bool :=
  match a.result with
  | .ok (some _) => true
  | _ => false

/-- Is this command a `GET`? -/
def Cmd.isGet : Cmd → Bool
  | .get _ => true
  | _ => false

/-! ## Shared lemmas about `release` -/

/-- With no token held, `release` is an immediate success with no traffic. -/
theorem release_none (st : RedLockState) (o : ReleaseOracle) (h : st.token = none) :
    release st o = ⟨.ok (), st, []⟩ := by
  simp [release, h]

/-- Whenever `release` returns `Ok`, the token is cleared afterwards. -/
theorem release_ok_token (st : RedLockState) (o : ReleaseOracle)
    (h : (release st o).result = .ok ()) : (release st o).state.token = none := by
  rcases ht : st.token with _ | t
  · simp [release, ht]
  · rcases hc : o.connResp with ⟨u⟩ | ⟨e⟩
    · rcases he : o.evalResp with ⟨r⟩ | ⟨e⟩
      · simp [release, ht, hc, he]
      · simp [release, ht, hc, he] at h
    · simp [release, ht, hc] at h

/-- Whenever `release` returns an error, the handle state is unchanged. -/
theorem release_err_state (st : RedLockState) (o : ReleaseOracle) (e : RedisErr)
    (h : (release st o).result = .err e) : (release st o).state = st := by
  rcases ht : st.token with _ | t
  · simp [release, ht]
  · rcases hc : o.connResp with ⟨u⟩ | ⟨e1⟩
    · rcases he : o.evalResp with ⟨r⟩ | ⟨e2⟩
      · simp [release, ht, hc, he] at h
      · simp [release, ht, hc, he]
    · simp [release, ht, hc]

/-! ## C2 — uncertain-outcome fallback after a failed `SET NX PX` -/

/-- C2, counterexample: the claim says that when the corrective `GET`
returns a value different from the fresh token, the original set error is
propagated.  In the code this case returns `Ok` with no token recorded (the
attempt is silently treated as not held): with set error code 7 and a stored
value `"other" ≠ "tok"`, `set_nx` returns `Ok` with `token = None`, not the
error. -/
theorem setNx_ambiguous_cex :
    (setNx ⟨"k", ⟨1, 0⟩, none, false⟩ "tok"
        ⟨.ok (), .err ⟨7⟩, .ok (some "other")⟩).1 = .ok none ∧
      (setNx ⟨"k", ⟨1, 0⟩, none, false⟩ "tok"
        ⟨.ok (), .err ⟨7⟩, .ok (some "other")⟩).1 ≠ .err ⟨7⟩ := by
  constructor
  · rfl
  · decide

/-- C2, amended: when the `SET NX PX` call itself fails with `e` (after a
successful pool checkout), `set_nx` issues exactly one corrective `GET`;
if the `GET` yields the fresh token the handle holds it; if the `GET` yields
no value the original error `e` is propagated; if the `GET` yields a
different value the attempt returns `Ok` with the token field unchanged
(treated as failed-to-acquire, the set error is not surfaced); if the `GET`
itself fails its own error (not `e`) is propagated. -/
theorem setNx_error_fallback (st : RedLockState) (tok : Token) (o : SetNxOracle)
    (e : RedisErr) (hc : o.connResp = .ok ()) (hs : o.setResp = .err e) :
    ((setNx st tok o).2.countP Cmd.isGet = 1) ∧
      (o.getResp = .ok (some tok) → (setNx st tok o).1 = .ok (some tok)) ∧
      (o.getResp = .ok none → (setNx st tok o).1 = .err e) ∧
      (∀ v, v ≠ tok → o.getResp = .ok (some v) → (setNx st tok o).1 = .ok st.token) ∧
      (∀ e2, o.getResp = .err e2 → (setNx st tok o).1 = .err e2) := by
  refine ⟨?_, ?_, ?_, ?_, ?_⟩
  · rcases hg : o.getResp with ⟨w⟩ | ⟨e2⟩
    · rcases w with _ | w
      · simp [setNx, hc, hs, hg, Cmd.isGet, List.countP_cons, List.countP_nil]
      · simp [setNx, hc, hs, hg, Cmd.isGet, List.countP_cons, List.countP_nil]
    · simp [setNx, hc, hs, hg, Cmd.isGet, List.countP_cons, List.countP_nil]
  · intro hg; simp [setNx, hc, hs, hg]
  · intro hg; simp [setNx, hc, hs, hg]
  · intro v hv hg; simp [setNx, hc, hs, hg, hv]
  · intro e2 hg; simp [setNx, hc, hs, hg]

/-- C2, witness: with a concrete set error (code 7) and a corrective `GET`
finding the key absent, the original error is propagated. -/
theorem setNx_error_fallback_witness :
    (setNx ⟨"k", ⟨1, 0⟩, none, false⟩ "tok"
        ⟨.ok (), .err ⟨7⟩, .ok none⟩).1 = .err ⟨7⟩ :=
  (setNx_error_fallback ⟨"k", ⟨1, 0⟩, none, false⟩ "tok"
    ⟨.ok (), .err ⟨7⟩, .ok none⟩ ⟨7⟩ rfl rfl).2.2.1 rfl

/-! ## C4 — release clears the token exactly on script success -/

/-- C4: for a held handle, `release` clears the token if and only if the
compare-and-delete invocation succeeds; when the script runs (with any 0/1
reply) the result is success, the token is cleared and exactly the
compare-and-delete command was issued; on any store error (pool checkout or
script) the error is propagated and the state is left unchanged. -/
theorem release_held_spec (st : RedLockState) (o : ReleaseOracle) (t : Token)
    (ht : st.token = some t) :
    ((release st o).result = .ok () ↔ (release st o).state.token = none) ∧
      (∀ r, o.connResp = .ok () → o.evalResp = .ok r →
        release st o = ⟨.ok (), { st with token := none }, [Cmd.evalCad st.key t]⟩) ∧
      (∀ e, (release st o).result = .err e → (release st o).state = st) := by
  refine ⟨?_, ?_, ?_⟩
  · rcases hc : o.connResp with ⟨u⟩ | ⟨e⟩
    · rcases he : o.evalResp with ⟨r⟩ | ⟨e⟩
      · simp [release, ht, hc, he]
      · simp [release, ht, hc, he]
    · simp [release, ht, hc]
  · intro r hc he
    simp [release, ht, hc, he]
  · intro e h
    exact release_err_state st o e h

/-- C4, witness: a held handle whose script call succeeds (reply 1) ends up
with the token cleared, a success result, and one compare-and-delete
command. -/
theorem release_held_spec_witness :
    release ⟨"k", ⟨1, 0⟩, some "t", false⟩ ⟨.ok (), .ok 1⟩
      = ⟨.ok (), ⟨"k", ⟨1, 0⟩, none, false⟩, [Cmd.evalCad "k" "t"]⟩ :=
  (release_held_spec ⟨"k", ⟨1, 0⟩, some "t", false⟩ ⟨.ok (), .ok 1⟩ "t" rfl).2.1 1 rfl rfl

/-! ## C5 — release is idempotent -/

/-- C5: with `token = None`, `release` returns success at once with no store
command and no state change; consequently, after any successful `release`,
a second `release` (under any store behaviour) succeeds, issues no command,
and changes nothing. -/
theorem release_idempotent :
    (∀ (st : RedLockState) (o : ReleaseOracle), st.token = none →
        release st o = ⟨.ok (), st, []⟩) ∧
      (∀ (st : RedLockState) (o1 o2 : ReleaseOracle),
        (release st o1).result = .ok () →
        release (release st o1).state o2 = ⟨.ok (), (release st o1).state, []⟩) := by
  refine ⟨fun st o h => release_none st o h, ?_⟩
  intro st o1 o2 h
  exact release_none _ o2 (release_ok_token st o1 h)

/-- C5, witness: after a successful release, a second release succeeds and
issues nothing even against a store whose pool checkout would fail. -/
theorem release_idempotent_witness :
    release (release ⟨"k", ⟨1, 0⟩, some "t", false⟩ ⟨.ok (), .ok 1⟩).state ⟨.err ⟨3⟩, .ok 0⟩
      = ⟨.ok (), (release ⟨"k", ⟨1, 0⟩, some "t", false⟩ ⟨.ok (), .ok 1⟩).state, []⟩ :=
  release_idempotent.2 ⟨"k", ⟨1, 0⟩, some "t", false⟩ ⟨.ok (), .ok 1⟩ ⟨.err ⟨3⟩, .ok 0⟩ rfl

/-! ## C7 — scope-end (Drop) release behaviour -/

/-- C7: at scope end a release is attempted exactly when the handle holds a
token and `prevent` has not been set, in both the synchronous drop and the
detached-background-task asynchronous drop; the drop returns a plain
`DropOutcome` (there is no error channel to the caller), a failing release
is only logged (sync: the release error appears in the log and the state is
untouched; async: the detached task's trace and logged error are exactly
those of the task), and a succeeding release logs nothing. -/
theorem drop_spec (st : RedLockState) (o : ReleaseOracle) :
    ((dropSync st o).attempted = (st.token.isSome && !st.prevent)) ∧
      ((dropAsync st o).attempted = (st.token.isSome && !st.prevent)) ∧
      (∀ e, st.prevent = false → (release st o).result = .err e →
        (dropSync st o).logged = some e ∧ (dropSync st o).state = st) ∧
      ((release st o).result = .ok () → (dropSync st o).logged = none) ∧
      (∀ t, st.token = some t → st.prevent = false →
        (dropAsync st o).trace = (dropAsyncTask st.key t o).1 ∧
          (dropAsync st o).logged = (dropAsyncTask st.key t o).2) := by
  refine ⟨?_, ?_, ?_, ?_, ?_⟩
  · rcases ht : st.token with _ | t <;> rcases hp : st.prevent <;>
      simp [dropSync, ht, hp]
  · rcases ht : st.token with _ | t <;> rcases hp : st.prevent <;>
      simp [dropAsync, ht, hp]
  · intro e hp hre
    rcases ht : st.token with _ | t
    · rw [release_none st o ht] at hre
      simp at hre
    · have hstate := release_err_state st o e hre
      simp [dropSync, ht, hp, hre, hstate]
  · intro h
    rcases ht : st.token with _ | t
    · simp [dropSync, ht]
    · rcases hp : st.prevent
      · simp [dropSync, ht, hp, h]
      · simp [dropSync, ht, hp]
  · intro t ht hp
    simp [dropAsync, ht, hp]

/-- C7, witness: a held, unsuppressed handle whose release script fails with
error code 9 logs that error at scope end and leaves the state unchanged. -/
theorem drop_spec_witness :
    (dropSync ⟨"k", ⟨1, 0⟩, some "t", false⟩ ⟨.ok (), .err ⟨9⟩⟩).logged = some ⟨9⟩ ∧
      (dropSync ⟨"k", ⟨1, 0⟩, some "t", false⟩ ⟨.ok (), .err ⟨9⟩⟩).state
        = ⟨"k", ⟨1, 0⟩, some "t", false⟩ :=
  (drop_spec ⟨"k", ⟨1, 0⟩, some "t", false⟩ ⟨.ok (), .err ⟨9⟩⟩).2.2.1 ⟨9⟩ rfl rfl

/-! ## C9 — argument validation -/

/-- C9, counterexample: the claim says an empty key (or non-positive TTL)
fails with an `InvalidArgument` error before any store command is issued.
The code performs no validation at all: with key `""` and a zero TTL the
set command is issued (with `PX 0`) and, the store answering `true`, the
call returns `Ok(Some(handle))`. -/
theorem acquire_no_validation_cex :
    (acquire "" ⟨0, 0⟩ none (fun _ => "t")
        (fun _ => ⟨.ok (), .ok true, .ok none⟩)).trace = [Cmd.setNxPx "" "t" 0] ∧
      (acquire "" ⟨0, 0⟩ none (fun _ => "t")
        (fun _ => ⟨.ok (), .ok true, .ok none⟩)).result
        = .ok (some ⟨"", ⟨0, 0⟩, some "t", false⟩) := by
  constructor <;> rfl

/-- C9, amended: `acquire` performs no argument validation; for every key
(including the empty one) and every TTL (including zero), whenever the pool
checkout succeeds the very first store command issued is the
`SET key token NX PX ttl_ms` itself. No `InvalidArgument` error exists in
the code. -/
theorem acquire_no_validation (key : String) (ttl : Duration)
    (toks : Nat → Token) (orc : Nat → SetNxOracle)
    (hc : (orc 0).connResp = .ok ()) :
    (acquire key ttl none toks orc).trace.head?
      = some (Cmd.setNxPx key (toks 0) (toU64 ttl.asMillis)) := by
  rcases hs : (orc 0).setResp with ⟨v⟩ | ⟨e⟩
  · cases v <;> simp [acquire, setNx, hc, hs]
  · rcases hg : (orc 0).getResp with ⟨w⟩ | ⟨e2⟩
    · rcases w with _ | w
      · simp [acquire, setNx, hc, hs, hg]
      · by_cases hw : w = toks 0 <;> simp [acquire, setNx, hc, hs, hg, hw]
    · simp [acquire, setNx, hc, hs, hg]

/-- C9, witness: with an empty key and zero TTL the first command issued is
`SET "" "t" NX PX 0`. -/
theorem acquire_no_validation_witness :
    (acquire "" ⟨0, 0⟩ none (fun _ => "t")
        (fun _ => ⟨.ok (), .ok false, .ok none⟩)).trace.head?
      = some (Cmd.setNxPx "" "t" 0) :=
  acquire_no_validation "" ⟨0, 0⟩ (fun _ => "t")
    (fun _ => ⟨.ok (), .ok false, .ok none⟩) rfl

/-! ## C10 — non-positive retry attempts -/

/-- C10: with `retry = Some((attempts, d))` and `attempts ≤ 0`, the Rust
range `0..attempts` is empty, so `acquire` makes zero `set_nx` attempts,
issues zero store commands, sleeps zero times, and returns `Ok(None)` — no
validation error and no fallback to a single attempt. -/
theorem acquire_nonpositive_attempts (key : String) (ttl : Duration)
    (a : Int) (d : Duration) (toks : Nat → Token) (orc : Nat → SetNxOracle)
    (ha : a ≤ 0) :
    acquire key ttl (some (a, d)) toks orc = ⟨.ok none, [], [], 0⟩ := by
  simp [acquire, Int.toNat_of_nonpos ha, acquireGo]

/-- C10, witness: `attempts = -3` yields `Ok(None)` with no sleep, no store
command and zero attempts, even though the store would have answered
`true`. -/
theorem acquire_nonpositive_attempts_witness :
    acquire "k" ⟨1, 0⟩ (some ((-3 : Int), ⟨0, 0⟩)) (fun _ => "t")
        (fun _ => ⟨.ok (), .ok true, .ok none⟩) = ⟨.ok none, [], [], 0⟩ :=
  acquire_nonpositive_attempts "k" ⟨1, 0⟩ (-3) ⟨0, 0⟩ (fun _ => "t")
    (fun _ => ⟨.ok (), .ok true, .ok none⟩) (by decide)

/-! ## C8 — expiry carried by the set command -/

/-- Every command issued by `set_nx` (builder variant) is either the
`SET NX PX` with the handle's key and truncated millisecond TTL, or the
corrective `GET` on the same key. -/
theorem setNx_trace_mem (st : RedLockState) (tok : Token) (o : SetNxOracle)
    (c : Cmd) (hc : c ∈ (setNx st tok o).2) :
    c = Cmd.setNxPx st.key tok (toU64 st.ttl.asMillis) ∨ c = Cmd.get st.key := by
  rcases o with ⟨cr, sr, gr⟩
  rcases cr with ⟨u⟩ | ⟨e⟩
  · rcases sr with ⟨v⟩ | ⟨e⟩
    · simp [setNx] at hc
      simp [hc]
    · rcases gr with ⟨w⟩ | ⟨e2⟩
      · rcases w with _ | w <;> (simp [setNx] at hc; tauto)
      · simp [setNx] at hc
        tauto
  · simp [setNx] at hc

/-- Every command issued by the `redlock.rs` variant of `set_nx` is either
the `SET NX EX` with the handle's key and clamped whole-second TTL, or the
corrective `GET` on the same key. -/
theorem redlockSetNx_trace_mem (st : RedLockState) (tok : Token) (o : SetNxOracle)
    (c : Cmd) (hc : c ∈ (redlockSetNx st tok o).2) :
    c = Cmd.setNxEx st.key tok (max st.ttl.asSecs 1) ∨ c = Cmd.get st.key := by
  rcases o with ⟨cr, sr, gr⟩
  rcases cr with ⟨u⟩ | ⟨e⟩
  · rcases sr with ⟨v⟩ | ⟨e⟩
    · simp [redlockSetNx] at hc
      simp [hc]
    · rcases gr with ⟨w⟩ | ⟨e2⟩
      · rcases w with _ | w <;> (simp [redlockSetNx] at hc; tauto)
      · simp [redlockSetNx] at hc
        tauto
  · simp [redlockSetNx] at hc

/-- Every command issued during the retry loop is a `SET NX PX` with the
loop's key and truncated millisecond TTL, or a `GET` on that key. -/
theorem acquireGo_trace_mem (toks : Nat → Token) (orc : Nat → SetNxOracle)
    (d : Duration) (key : String) (ttl : Duration) :
    ∀ r i (st : RedLockState), st.key = key → st.ttl = ttl →
      ∀ c ∈ (acquireGo toks orc d st i r).trace,
        (∃ v, c = Cmd.setNxPx key v (toU64 ttl.asMillis)) ∨ c = Cmd.get key := by
  intro r
  induction r with
  | zero =>
    intro i st hk ht c hc
    simp [acquireGo] at hc
  | succ r ih =>
    intro i st hk ht c hc
    rcases hm : setNx st (toks i) (orc i) with ⟨res, tr⟩
    have htr : ∀ c ∈ tr,
        (∃ v, c = Cmd.setNxPx key v (toU64 ttl.asMillis)) ∨ c = Cmd.get key := by
      intro c hctr
      have hmem := setNx_trace_mem st (toks i) (orc i) c (by rw [hm]; exact hctr)
      rw [hk, ht] at hmem
      tauto
    simp only [acquireGo] at hc
    rw [hm] at hc
    rcases res with ⟨newTok⟩ | ⟨e⟩
    · rcases newTok with _ | tk
      · simp only [Option.isSome_none, Bool.false_eq_true, if_false,
          List.mem_append] at hc
        rcases hc with hc | hc
        · exact htr c hc
        · exact ih (i + 1) { st with token := none } hk ht c hc
      · simp only [Option.isSome_some, if_true] at hc
        exact htr c hc
    · simp only at hc
      exact htr c hc

/-- C8, counterexample: the claim says every acquisition writes the key with
an expiry equal to the caller's TTL in milliseconds.  The cited
`kr-core/src/mutex/redlock.rs` variant instead writes
`EX(ttl.as_secs().max(1))`: for a 100 ms TTL it issues a 1-second expiry
(1000 ms ≠ 100 ms). -/
theorem redlock_expiry_cex :
    (redlockSetNx ⟨"k", ⟨0, 100000000⟩, none, false⟩ "t"
        ⟨.ok (), .ok true, .ok none⟩).2 = [Cmd.setNxEx "k" "t" 1] ∧
      Duration.asMillis ⟨0, 100000000⟩ = 100 ∧ 1 * 1000 ≠ 100 := by
  refine ⟨rfl, rfl, by decide⟩

/-- C8, amended: the builder variant (`red_lock.rs`, and likewise the async
and `src/mutex` variants) writes every set command with
`PX (ttl.as_millis() as u64)` — the caller's TTL in milliseconds truncated
to `u64` — while the `redlock.rs` constructor variant writes
`EX (max(ttl.as_secs(), 1))` — whole seconds with sub-second TTLs rounded up
to one second. -/
theorem expiry_commands (key : String) (ttl : Duration) (retry : Option (Int × Duration))
    (toks : Nat → Token) (orc : Nat → SetNxOracle) :
    (∀ k v p, Cmd.setNxPx k v p ∈ (acquire key ttl retry toks orc).trace →
        k = key ∧ p = toU64 ttl.asMillis) ∧
      (∀ (st : RedLockState) (tok : Token) (o : SetNxOracle) k v s,
        Cmd.setNxEx k v s ∈ (redlockSetNx st tok o).2 →
        k = st.key ∧ s = max st.ttl.asSecs 1) := by
  constructor
  · intro k v p hmem
    have hdisj : (∃ v', Cmd.setNxPx k v p = Cmd.setNxPx key v' (toU64 ttl.asMillis)) ∨
        Cmd.setNxPx k v p = Cmd.get key := by
      rcases retry with _ | ⟨a, dint⟩
      · rcases hm : setNx (⟨key, ttl, none, false⟩ : RedLockState) (toks 0) (orc 0)
          with ⟨res, tr⟩
        have htrace : (acquire key ttl none toks orc).trace = tr := by
          rcases res with ⟨newTok⟩ | ⟨e⟩
          · rcases newTok with _ | tk <;> simp [acquire, hm]
          · simp [acquire, hm]
        rw [htrace] at hmem
        have hmem2 := setNx_trace_mem ⟨key, ttl, none, false⟩ (toks 0) (orc 0)
          (Cmd.setNxPx k v p) (by rw [hm]; exact hmem)
        tauto
      · have htrace : (acquire key ttl (some (a, dint)) toks orc).trace
            = (acquireGo toks orc dint ⟨key, ttl, none, false⟩ 0 a.toNat).trace := by
          simp [acquire]
        rw [htrace] at hmem
        exact acquireGo_trace_mem toks orc dint key ttl a.toNat 0
          ⟨key, ttl, none, false⟩ rfl rfl (Cmd.setNxPx k v p) hmem
    rcases hdisj with ⟨v', hv⟩ | hv
    · simp only [Cmd.setNxPx.injEq] at hv
      exact ⟨hv.1, hv.2.2⟩
    · simp at hv
  · intro st tok o k v s hmem
    have hmem2 := redlockSetNx_trace_mem st tok o (Cmd.setNxEx k v s) hmem
    rcases hmem2 with hv | hv
    · simp only [Cmd.setNxEx.injEq] at hv
      exact ⟨hv.1, hv.2.2⟩
    · simp at hv

/-- C8, witness: a one-second TTL acquisition issues its set command with
`PX 1000`. -/
theorem expiry_commands_witness :
    "k" = "k" ∧ (1000 : Nat) = toU64 (Duration.asMillis ⟨1, 0⟩) :=
  (expiry_commands "k" ⟨1, 0⟩ none (fun _ => "t")
      (fun _ => ⟨.ok (), .ok true, .ok none⟩)).1 "k" "t" 1000 (by decide)

/-! ## C1 — mutual exclusion of serialised concurrent acquisitions -/

/-- If the store already holds a value when an attempt's atomic set is
serialised, every later serialised single-attempt acquisition returns
`Ok(None)`. -/
theorem serializeAcquires_held (key : String) (ttl : Duration) :
    ∀ (ts : List Token) (v : Token) a,
      a ∈ serializeAcquires key ttl (some v) ts → a.result = .ok none := by
  intro ts
  induction ts with
  | nil =>
    intro v a ha
    simp [serializeAcquires] at ha
  | cons t ts ih =>
    intro v a ha
    simp only [serializeAcquires, storeSetNx, List.mem_cons] at ha
    rcases ha with h | h
    · subst h
      rfl
    · exact ih v a h

/-- One serialised outcome per concurrent attempt. -/
theorem serializeAcquires_length (key : String) (ttl : Duration) :
    ∀ (store : Option Token) (ts : List Token),
      (serializeAcquires key ttl store ts).length = ts.length := by
  intro store ts
  induction ts generalizing store with
  | nil => rfl
  | cons t ts ih => simp [serializeAcquires, ih]

/-- C1: N ≥ 1 concurrent single-attempt acquisitions of the same key with
the same TTL, none meeting a store error, serialised in the order their
atomic `SET NX` operations reach an initially-free store: exactly one call
returns `Ok(Some(handle))` and each of the remaining N−1 calls returns
`Ok(None)`. -/
theorem mutual_exclusion (key : String) (ttl : Duration) (t : Token) (ts : List Token) :
    ((serializeAcquires key ttl none (t :: ts)).countP acquired = 1) ∧
      ((serializeAcquires key ttl none (t :: ts)).countP
        (fun a => decide (a.result = .ok none)) = ts.length) := by
  have hhead : serializeAcquires key ttl none (t :: ts)
      = acquire key ttl none (fun _ => t) (fun _ => oracleOf none t)
        :: serializeAcquires key ttl (some t) ts := rfl
  have hwin : acquired (acquire key ttl none (fun _ => t) (fun _ => oracleOf none t))
      = true := rfl
  have hres : (acquire key ttl none (fun _ => t) (fun _ => oracleOf none t)).result
      = .ok (some ⟨key, ttl, some t, false⟩) := rfl
  have htail := serializeAcquires_held key ttl ts t
  constructor
  · rw [hhead, List.countP_cons, hwin]
    have hzero : (serializeAcquires key ttl (some t) ts).countP acquired = 0 := by
      rw [List.countP_eq_zero]
      intro a ha
      have := htail a ha
      simp [acquired, this]
    rw [hzero]
    simp
  · rw [hhead, List.countP_cons, hres]
    have hlen : (serializeAcquires key ttl (some t) ts).countP
        (fun a => decide (a.result = .ok none)) = ts.length := by
      have := List.countP_eq_length (l := serializeAcquires key ttl (some t) ts)
        (p := fun a => decide (a.result = .ok none))
      rw [← serializeAcquires_length key ttl (some t) ts]
      exact this.mpr (fun a ha => by simp [htail a ha])
    rw [hlen]
    simp

/-! ## C3 — bounded retry with sleeps between attempts -/

/-- Writing back an unchanged `None` token leaves the state intact. -/
theorem token_update_none (st : RedLockState) (h : st.token = none) :
    ({ st with token := none } : RedLockState) = st := by
  cases st
  simp_all

/-- Retry loop, exhaustion: if every attempt reports "key already held"
(`Ok` with no token), the loop runs all `r` attempts, sleeps `r - 1` times,
and yields `Ok(None)`. -/
theorem acquireGo_all_fail (toks : Nat → Token) (orc : Nat → SetNxOracle) (d : Duration) :
    ∀ (r i : Nat) (st : RedLockState), st.token = none →
      (∀ k, k < r → (setNx st (toks (i + k)) (orc (i + k))).1 = .ok none) →
      (acquireGo toks orc d st i r).result = .ok none ∧
        (acquireGo toks orc d st i r).sleeps = List.replicate (r - 1) d ∧
        (acquireGo toks orc d st i r).tries = r := by
  intro r
  induction r with
  | zero => intro i st hst hf; exact ⟨rfl, rfl, rfl⟩
  | succ r ih =>
    intro i st hst hf
    have h0 : (setNx st (toks i) (orc i)).1 = .ok none := by
      have := hf 0 (Nat.succ_pos r)
      simpa using this
    rcases hm : setNx st (toks i) (orc i) with ⟨res, tr⟩
    rw [hm] at h0
    have hres : res = RResult.ok none := h0
    subst hres
    have hupd := token_update_none st hst
    have hrest := ih (i + 1) st hst (fun k hk => by
      have := hf (k + 1) (Nat.succ_lt_succ hk)
      rwa [show i + (k + 1) = i + 1 + k by omega] at this)
    have hgo : acquireGo toks orc d st i (r + 1)
        = ⟨(acquireGo toks orc d st (i + 1) r).result,
            (if r = 0 then [] else [d]) ++ (acquireGo toks orc d st (i + 1) r).sleeps,
            tr ++ (acquireGo toks orc d st (i + 1) r).trace,
            1 + (acquireGo toks orc d st (i + 1) r).tries⟩ := by
      simp only [acquireGo]
      rw [hm]
      simp [hupd]
    rw [hgo]
    refine ⟨hrest.1, ?_, ?_⟩
    · rcases Nat.eq_zero_or_pos r with hr | hr
      · subst hr
        simp [hrest.2.1]
      · obtain ⟨r', rfl⟩ := Nat.exists_eq_succ_of_ne_zero (Nat.pos_iff_ne_zero.mp hr)
        simp [hrest.2.1, List.replicate_succ]
    · show 1 + (acquireGo toks orc d st (i + 1) r).tries = r + 1
      rw [hrest.2.2]
      omega

/-- Retry loop, first success: if the first `j` attempts report "already
held" and attempt `j` installs token `tk`, the loop returns the held handle
after `j + 1` attempts and `j` sleeps. -/
theorem acquireGo_first_success (toks : Nat → Token) (orc : Nat → SetNxOracle) (d : Duration) :
    ∀ (j r i : Nat) (st : RedLockState) (tk : Token), st.token = none → j < r →
      (∀ k, k < j → (setNx st (toks (i + k)) (orc (i + k))).1 = .ok none) →
      (setNx st (toks (i + j)) (orc (i + j))).1 = .ok (some tk) →
      (acquireGo toks orc d st i r).result = .ok (some { st with token := some tk }) ∧
        (acquireGo toks orc d st i r).sleeps = List.replicate j d ∧
        (acquireGo toks orc d st i r).tries = j + 1 := by
  intro j
  induction j with
  | zero =>
    intro r i st tk hst hjr hf hsucc
    obtain ⟨r', rfl⟩ := Nat.exists_eq_succ_of_ne_zero (Nat.pos_iff_ne_zero.mp hjr)
    simp only [Nat.add_zero] at hsucc
    rcases hm : setNx st (toks i) (orc i) with ⟨res, tr⟩
    rw [hm] at hsucc
    have hres : res = RResult.ok (some tk) := hsucc
    subst hres
    refine ⟨?_, ?_, ?_⟩ <;> (simp only [acquireGo]; rw [hm]; simp)
  | succ j ihj =>
    intro r i st tk hst hjr hf hsucc
    obtain ⟨r', rfl⟩ := Nat.exists_eq_succ_of_ne_zero
      (Nat.pos_iff_ne_zero.mp (Nat.lt_of_lt_of_le (Nat.zero_lt_succ j) (Nat.le_of_lt hjr)))
    have h0 : (setNx st (toks i) (orc i)).1 = .ok none := by
      have := hf 0 (Nat.succ_pos j)
      simpa using this
    rcases hm : setNx st (toks i) (orc i) with ⟨res, tr⟩
    rw [hm] at h0
    have hres : res = RResult.ok none := h0
    subst hres
    have hupd := token_update_none st hst
    have hjr' : j < r' := Nat.lt_of_succ_lt_succ hjr
    have hrest := ihj r' (i + 1) st tk hst hjr'
      (fun k hk => by
        have := hf (k + 1) (Nat.succ_lt_succ hk)
        rwa [show i + (k + 1) = i + 1 + k by omega] at this)
      (by
        rw [show i + 1 + j = i + (j + 1) by omega]
        exact hsucc)
    have hgo : acquireGo toks orc d st i (r' + 1)
        = ⟨(acquireGo toks orc d st (i + 1) r').result,
            (if r' = 0 then [] else [d]) ++ (acquireGo toks orc d st (i + 1) r').sleeps,
            tr ++ (acquireGo toks orc d st (i + 1) r').trace,
            1 + (acquireGo toks orc d st (i + 1) r').tries⟩ := by
      simp only [acquireGo]
      rw [hm]
      simp [hupd]
    rw [hgo]
    have hr'pos : r' ≠ 0 := Nat.pos_iff_ne_zero.mp (Nat.lt_of_le_of_lt (Nat.zero_le j) hjr')
    refine ⟨hrest.1, ?_, ?_⟩
    · simp [hr'pos, hrest.2.1, List.replicate_succ]
    · show 1 + (acquireGo toks orc d st (i + 1) r').tries = j + 1 + 1
      rw [hrest.2.2]
      omega

/-- Retry loop, store error: if the first `j` attempts report "already held"
and attempt `j` fails with store error `e`, the loop aborts at once with `e`
after `j + 1` attempts and `j` sleeps (none after the error). -/
theorem acquireGo_first_err (toks : Nat → Token) (orc : Nat → SetNxOracle) (d : Duration) :
    ∀ (j r i : Nat) (st : RedLockState) (e : RedisErr), st.token = none → j < r →
      (∀ k, k < j → (setNx st (toks (i + k)) (orc (i + k))).1 = .ok none) →
      (setNx st (toks (i + j)) (orc (i + j))).1 = .err e →
      (acquireGo toks orc d st i r).result = .err e ∧
        (acquireGo toks orc d st i r).sleeps = List.replicate j d ∧
        (acquireGo toks orc d st i r).tries = j + 1 := by
  intro j
  induction j with
  | zero =>
    intro r i st e hst hjr hf herr
    obtain ⟨r', rfl⟩ := Nat.exists_eq_succ_of_ne_zero (Nat.pos_iff_ne_zero.mp hjr)
    simp only [Nat.add_zero] at herr
    rcases hm : setNx st (toks i) (orc i) with ⟨res, tr⟩
    rw [hm] at herr
    have hres : res = RResult.err e := herr
    subst hres
    refine ⟨?_, ?_, ?_⟩ <;> (simp only [acquireGo]; rw [hm]; try simp)
  | succ j ihj =>
    intro r i st e hst hjr hf herr
    obtain ⟨r', rfl⟩ := Nat.exists_eq_succ_of_ne_zero
      (Nat.pos_iff_ne_zero.mp (Nat.lt_of_lt_of_le (Nat.zero_lt_succ j) (Nat.le_of_lt hjr)))
    have h0 : (setNx st (toks i) (orc i)).1 = .ok none := by
      have := hf 0 (Nat.succ_pos j)
      simpa using this
    rcases hm : setNx st (toks i) (orc i) with ⟨res, tr⟩
    rw [hm] at h0
    have hres : res = RResult.ok none := h0
    subst hres
    have hupd := token_update_none st hst
    have hjr' : j < r' := Nat.lt_of_succ_lt_succ hjr
    have hrest := ihj r' (i + 1) st e hst hjr'
      (fun k hk => by
        have := hf (k + 1) (Nat.succ_lt_succ hk)
        rwa [show i + (k + 1) = i + 1 + k by omega] at this)
      (by
        rw [show i + 1 + j = i + (j + 1) by omega]
        exact herr)
    have hgo : acquireGo toks orc d st i (r' + 1)
        = ⟨(acquireGo toks orc d st (i + 1) r').result,
            (if r' = 0 then [] else [d]) ++ (acquireGo toks orc d st (i + 1) r').sleeps,
            tr ++ (acquireGo toks orc d st (i + 1) r').trace,
            1 + (acquireGo toks orc d st (i + 1) r').tries⟩ := by
      simp only [acquireGo]
      rw [hm]
      simp [hupd]
    rw [hgo]
    have hr'pos : r' ≠ 0 := Nat.pos_iff_ne_zero.mp (Nat.lt_of_le_of_lt (Nat.zero_le j) hjr')
    refine ⟨hrest.1, ?_, ?_⟩
    · simp [hr'pos, hrest.2.1, List.replicate_succ]
    · show 1 + (acquireGo toks orc d st (i + 1) r').tries = j + 1 + 1
      rw [hrest.2.2]
      omega

/-- The retry loop never makes more attempts than it has iterations. -/
theorem acquireGo_tries_le (toks : Nat → Token) (orc : Nat → SetNxOracle) (d : Duration) :
    ∀ (r i : Nat) (st : RedLockState), (acquireGo toks orc d st i r).tries ≤ r := by
  intro r
  induction r with
  | zero => intro i st; exact Nat.le_refl 0
  | succ r ih =>
    intro i st
    rcases hm : setNx st (toks i) (orc i) with ⟨res, tr⟩
    rcases res with ⟨newTok⟩ | ⟨e⟩
    · rcases newTok with _ | tk
      · have hrec := ih (i + 1) { st with token := none }
        simp only [acquireGo]
        rw [hm]
        simp only [Option.isSome_none, Bool.false_eq_true, if_false]
        omega
      · simp only [acquireGo]
        rw [hm]
        simp
    · simp only [acquireGo]
      rw [hm]
      simp

/-- C3: with `retry = Some((N, d))`, `N ≥ 1`, `acquire` makes at most `N`
attempts; if every attempt finds the key held it returns `Ok(None)` after
exactly `N` attempts and `N − 1` sleeps of `d`; if the first `j` attempts
find the key held and attempt `j` installs token `tk`, it returns that
handle after `j + 1` attempts and `j` sleeps; and a store error on attempt
`j` aborts the whole call at once with that error (no further attempt, no
further sleep). -/
theorem acquire_retry_spec (key : String) (ttl : Duration) (N : Nat) (d : Duration)
    (toks : Nat → Token) (orc : Nat → SetNxOracle) (hN : 1 ≤ N) :
    ((acquire key ttl (some ((N : Int), d)) toks orc).tries ≤ N) ∧
      ((∀ k, k < N →
          (setNx ⟨key, ttl, none, false⟩ (toks k) (orc k)).1 = .ok none) →
        (acquire key ttl (some ((N : Int), d)) toks orc).result = .ok none ∧
          (acquire key ttl (some ((N : Int), d)) toks orc).sleeps
            = List.replicate (N - 1) d ∧
          (acquire key ttl (some ((N : Int), d)) toks orc).tries = N) ∧
      (∀ j tk, j < N →
        (∀ k, k < j → (setNx ⟨key, ttl, none, false⟩ (toks k) (orc k)).1 = .ok none) →
        (setNx ⟨key, ttl, none, false⟩ (toks j) (orc j)).1 = .ok (some tk) →
        (acquire key ttl (some ((N : Int), d)) toks orc).result
            = .ok (some ⟨key, ttl, some tk, false⟩) ∧
          (acquire key ttl (some ((N : Int), d)) toks orc).sleeps = List.replicate j d ∧
          (acquire key ttl (some ((N : Int), d)) toks orc).tries = j + 1) ∧
      (∀ j e, j < N →
        (∀ k, k < j → (setNx ⟨key, ttl, none, false⟩ (toks k) (orc k)).1 = .ok none) →
        (setNx ⟨key, ttl, none, false⟩ (toks j) (orc j)).1 = .err e →
        (acquire key ttl (some ((N : Int), d)) toks orc).result = .err e ∧
          (acquire key ttl (some ((N : Int), d)) toks orc).sleeps = List.replicate j d ∧
          (acquire key ttl (some ((N : Int), d)) toks orc).tries = j + 1) := by
  have hacq : acquire key ttl (some ((N : Int), d)) toks orc
      = acquireGo toks orc d ⟨key, ttl, none, false⟩ 0 N := by
    simp [acquire]
  refine ⟨?_, ?_, ?_, ?_⟩
  · rw [hacq]
    exact acquireGo_tries_le toks orc d N 0 ⟨key, ttl, none, false⟩
  · intro hf
    rw [hacq]
    exact acquireGo_all_fail toks orc d N 0 ⟨key, ttl, none, false⟩ rfl
      (fun k hk => by simpa using hf k hk)
  · intro j tk hj hf hsucc
    rw [hacq]
    exact acquireGo_first_success toks orc d j N 0 ⟨key, ttl, none, false⟩ tk rfl hj
      (fun k hk => by simpa using hf k hk) (by simpa using hsucc)
  · intro j e hj hf herr
    rw [hacq]
    exact acquireGo_first_err toks orc d j N 0 ⟨key, ttl, none, false⟩ e rfl hj
      (fun k hk => by simpa using hf k hk) (by simpa using herr)

/-- C3, witness: two attempts against a key that stays held yield `Ok(None)`
after exactly 2 attempts and one sleep of the configured 5 ms interval. -/
theorem acquire_retry_spec_witness :
    (acquire "k" ⟨1, 0⟩ (some (((2 : Nat) : Int), ⟨0, 5000000⟩)) (fun _ => "t")
        (fun _ => ⟨.ok (), .ok false, .ok none⟩)).result = .ok none ∧
      (acquire "k" ⟨1, 0⟩ (some (((2 : Nat) : Int), ⟨0, 5000000⟩)) (fun _ => "t")
        (fun _ => ⟨.ok (), .ok false, .ok none⟩)).sleeps
        = List.replicate 1 ⟨0, 5000000⟩ ∧
      (acquire "k" ⟨1, 0⟩ (some (((2 : Nat) : Int), ⟨0, 5000000⟩)) (fun _ => "t")
        (fun _ => ⟨.ok (), .ok false, .ok none⟩)).tries = 2 :=
  (acquire_retry_spec "k" ⟨1, 0⟩ 2 ⟨0, 5000000⟩ (fun _ => "t")
      (fun _ => ⟨.ok (), .ok false, .ok none⟩) (by decide)).2.1 (fun k _ => rfl)

/-! ## C6 — a held token is never overwritten with a different one -/

/-- One handle operation either keeps a held token or clears it. -/
theorem applyOp_token_some (st : RedLockState) (op : HOp) (t : Token)
    (h : st.token = some t) :
    (applyOp st op).token = some t ∨ (applyOp st op).token = none := by
  cases op with
  | rel o =>
    rcases hc : o.connResp with ⟨u⟩ | ⟨e⟩
    · rcases he : o.evalResp with ⟨r⟩ | ⟨e⟩
      · right; simp [applyOp, release, h, hc, he]
      · left; simp [applyOp, release, h, hc, he]
    · left; simp [applyOp, release, h, hc]
  | prev => left; simp [applyOp, prevent, h]
  | drp o =>
    rcases hp : st.prevent
    · rcases hc : o.connResp with ⟨u⟩ | ⟨e⟩
      · rcases he : o.evalResp with ⟨r⟩ | ⟨e⟩
        · right; simp [applyOp, dropSync, release, h, hp, hc, he]
        · left; simp [applyOp, dropSync, release, h, hp, hc, he]
      · left; simp [applyOp, dropSync, release, h, hp, hc]
    · left; simp [applyOp, dropSync, h, hp]

/-- No handle operation resurrects a cleared token. -/
theorem applyOp_token_none (st : RedLockState) (op : HOp) (h : st.token = none) :
    (applyOp st op).token = none := by
  cases op with
  | rel o => simp [applyOp, release, h]
  | prev => simp [applyOp, prevent, h]
  | drp o => simp [applyOp, dropSync, h]

/-- No sequence of handle operations resurrects a cleared token. -/
theorem applyOps_token_none (ops : List HOp) :
    ∀ st : RedLockState, st.token = none → (applyOps st ops).token = none := by
  induction ops with
  | nil => intro st h; exact h
  | cons op ops ih => intro st h; exact ih _ (applyOp_token_none st op h)

/-- Running a concatenated operation sequence is running its parts in
order. -/
theorem applyOps_append (st : RedLockState) (l1 l2 : List HOp) :
    applyOps st (l1 ++ l2) = applyOps (applyOps st l1) l2 := by
  induction l1 generalizing st with
  | nil => rfl
  | cons op ops ih => simp [applyOps, ih]

/-- From a state holding `t`, any operation sequence that ends holding `t'`
in fact kept `t`. -/
theorem applyOps_token_some (ops : List HOp) :
    ∀ (st : RedLockState) (t t' : Token), st.token = some t →
      (applyOps st ops).token = some t' → t' = t := by
  induction ops with
  | nil =>
    intro st t t' h h'
    rw [applyOps] at h'
    rw [h] at h'
    exact (Option.some_inj.mp h').symm
  | cons op ops ih =>
    intro st t t' h h'
    rcases applyOp_token_some st op t h with hh | hh
    · exact ih _ t t' hh h'
    · have hnone := applyOps_token_none ops _ hh
      rw [applyOps] at h'
      rw [hnone] at h'
      cases h'

/-- Inside the acquisition loop the token only ever goes from `None`
directly to the fresh token of the successful attempt. -/
theorem acquireGo_result_token (toks : Nat → Token) (orc : Nat → SetNxOracle) (d : Duration) :
    ∀ (r i : Nat) (st h : RedLockState), st.token = none →
      (acquireGo toks orc d st i r).result = .ok (some h) →
      ∃ tk, h = { st with token := some tk } := by
  intro r
  induction r with
  | zero =>
    intro i st h hst hres
    simp [acquireGo] at hres
  | succ r ih =>
    intro i st h hst hres
    rcases hm : setNx st (toks i) (orc i) with ⟨res, tr⟩
    simp only [acquireGo] at hres
    rw [hm] at hres
    rcases res with ⟨newTok⟩ | ⟨e⟩
    · rcases newTok with _ | tk
      · simp only [Option.isSome_none, Bool.false_eq_true, if_false] at hres
        rw [token_update_none st hst] at hres
        exact ih (i + 1) st h hst hres
      · simp only [Option.isSome_some, if_true, RResult.ok.injEq,
          Option.some.injEq] at hres
        exact ⟨tk, hres.symm⟩
    · simp at hres

/-- C6: (i) a single handle operation (manual release, `prevent`, scope-end
drop) either keeps a held token `Some(t)` or clears it to `None`, never
replaces it with a different value; (ii) over any operation sequence, if the
handle holds `t` at some point and holds `t'` later, then `t' = t`; and
(iii) within `acquire`'s retry loop, starting unheld, a returned handle's
state differs from the unheld state only by the installation of the
successful attempt's fresh token — the token is written exactly once. -/
theorem token_monotone :
    (∀ (st : RedLockState) (op : HOp) (t : Token), st.token = some t →
        (applyOp st op).token = some t ∨ (applyOp st op).token = none) ∧
      (∀ (st : RedLockState) (pre post : List HOp) (t t' : Token),
        (applyOps st pre).token = some t →
        (applyOps st (pre ++ post)).token = some t' → t' = t) ∧
      (∀ (toks : Nat → Token) (orc : Nat → SetNxOracle) (d : Duration)
          (r i : Nat) (st h : RedLockState), st.token = none →
        (acquireGo toks orc d st i r).result = .ok (some h) →
        ∃ tk, h = { st with token := some tk }) := by
  refine ⟨applyOp_token_some, ?_, acquireGo_result_token⟩
  intro st pre post t t' h1 h2
  rw [applyOps_append] at h2
  exact applyOps_token_some post (applyOps st pre) t t' h1 h2

/-- C6, witness: a failed release keeps the token `"t"` held, and a
single-attempt loop that succeeds returns the unheld state with exactly the
fresh token installed. -/
theorem token_monotone_witness :
    ("t" = "t") ∧
      (∃ tk, (⟨"k", ⟨1, 0⟩, some "t", false⟩ : RedLockState)
        = ⟨"k", ⟨1, 0⟩, some tk, false⟩) :=
  ⟨token_monotone.2.1 ⟨"k", ⟨1, 0⟩, some "t", false⟩ []
      [HOp.rel ⟨.err ⟨1⟩, .ok 0⟩] "t" "t" rfl rfl,
    token_monotone.2.2 (fun _ => "t") (fun _ => ⟨.ok (), .ok true, .ok none⟩)
      ⟨0, 0⟩ 1 0 ⟨"k", ⟨1, 0⟩, none, false⟩ ⟨"k", ⟨1, 0⟩, some "t", false⟩ rfl rfl⟩

end Kr
